import Mathlib

/-!
Verification of the schema-mapped batch ingestion pipeline
(`python-pipeline/hydration`: `schema_mapper.py`, `phonograph.py`, and the
source-adapter contract in `adapters/base.py` with its concrete CSV/SQL
implementations).

Shallow embedding conventions:

* Python scalar values handled by the pipeline are embedded as `PyVal`
  (None, bool, int, float, str).  Python floats are modelled as exact
  rationals (`Rat`); no claim under scrutiny depends on IEEE rounding,
  only on whether a coercion succeeds or raises.
* A Python `dict` row is an association list with unique-key update
  (`dictSet`) and first-match lookup (`dictGet`).
* A coercion that raises `ValueError`/`TypeError` is embedded as an
  `Option`-valued function returning `none`; a caught exception is an
  `Option.getD`-style fallback; a propagating exception is `Except.error`.
* Builtin coercions `str`/`int`/`float` and `str.lower`/`str.upper` are
  embedded with their common-case semantics (sign handling, whitespace
  stripping, decimal/exponent syntax); exotica such as digit-group
  underscores, unicode digit classes and inf/nan literals are outside
  every property proved below.
-/

namespace Ontology

/-- Python scalar value as it flows through the pipeline.  Floats are
modelled as exact rationals (see the file header). -/
inductive PyVal where
  | null : PyVal
  | bool : Bool → PyVal
  | int : Int → PyVal
  | float : Rat → PyVal
  | str : String → PyVal
deriving DecidableEq, Repr

/-- A source row / properties dict: association list from column name to value. -/
abbrev Row := List (String × PyVal)

/-- Python `dict.get(key)` without default: first-match lookup. -/
def dictGet : Row → String → Option PyVal
  | [], _ => none
  | (k, v) :: rest, key => if k = key then some v else dictGet rest key

/-- Python `dict[key] = value`: replace the existing binding, else append. -/
def dictSet : Row → String → PyVal → Row
  | [], key, v => [(key, v)]
  | (k, w) :: rest, key, v =>
      if k = key then (key, v) :: rest else (k, w) :: dictSet rest key v

/-- Digit-string value, most significant first. -/
def digitsVal (cs : List Char) : Nat :=
  cs.foldl (fun a c => a * 10 + (c.toNat - 48)) 0

/-- Parse a nonempty all-digit character list. -/
def parseNatDigits (cs : List Char) : Option Nat :=
  if cs ≠ [] ∧ cs.all Char.isDigit then some (digitsVal cs) else none

/-- Strip leading and trailing whitespace from a character list
(`str.strip()` as performed by `int`/`float` on their argument). -/
def trimChars (cs : List Char) : List Char :=
  ((cs.dropWhile Char.isWhitespace).reverse.dropWhile Char.isWhitespace).reverse

/-- Embeds Python `int(s)` on strings: strip whitespace, optional sign,
nonempty digit run. -/
def parsePyInt (s : String) : Option Int :=
  match trimChars s.toList with
  | '+' :: rest => (parseNatDigits rest).map Int.ofNat
  | '-' :: rest => (parseNatDigits rest).map (fun n => -(n : Int))
  | rest => (parseNatDigits rest).map Int.ofNat

/-- Ten to a signed power, as a rational. -/
def pow10 (e : Int) : Rat :=
  if 0 ≤ e then ((10 : Rat) ^ e.toNat) else ((10 : Rat) ^ (-e).toNat)⁻¹

/-- Parse the mantissa part of a float literal: digits, optional point,
digits; at least one digit overall.  Returns the value and leftover. -/
def parseMantissa (cs : List Char) : Option (Rat × List Char) :=
  let ip := cs.takeWhile Char.isDigit
  let rest := cs.dropWhile Char.isDigit
  match rest with
  | '.' :: rest2 =>
      let fp := rest2.takeWhile Char.isDigit
      let rest3 := rest2.dropWhile Char.isDigit
      if ip = [] ∧ fp = [] then none
      else some (((digitsVal ip : Rat) +
        (digitsVal fp : Rat) / ((10 : Rat) ^ fp.length), rest3))
  | _ => if ip = [] then none else some ((digitsVal ip : Rat), rest)

/-- Parse an optional exponent suffix (the whole leftover must be consumed). -/
def parseExpSuffix : List Char → Option Int
  | [] => some 0
  | c :: rest =>
      if c = 'e' ∨ c = 'E' then
        match rest with
        | '+' :: ds => (parseNatDigits ds).map Int.ofNat
        | '-' :: ds => (parseNatDigits ds).map (fun n => -(n : Int))
        | ds => (parseNatDigits ds).map Int.ofNat
      else none

/-- Embeds Python `float(s)` on strings: strip whitespace, optional sign,
decimal mantissa, optional exponent. -/
def parsePyFloat (s : String) : Option Rat :=
  let core : List Char → Option Rat := fun cs =>
    match parseMantissa cs with
    | some (m, rest) => (parseExpSuffix rest).map (fun e => m * pow10 e)
    | none => none
  match trimChars s.toList with
  | '+' :: rest => core rest
  | '-' :: rest => (core rest).map Neg.neg
  | rest => core rest

/-- Embeds Python `str(v)` for the scalar values of the pipeline.  Total:
`str` raises on none of them.  The rendering of a float is a deterministic
stand-in (numerator/denominator); no proved property inspects it. -/
def pyStr : PyVal → String
  | PyVal.null => "None"
  | PyVal.bool true => "True"
  | PyVal.bool false => "False"
  | PyVal.int n => toString n
  | PyVal.float q => toString q.num ++ "/" ++ toString q.den
  | PyVal.str s => s

/-- Embeds `str` as a registry entry: total, hence never falls back. -/
def py_to_string (v : PyVal) : Option PyVal :=
  some (PyVal.str (pyStr v))

/-- Embeds `int(v)`: `none` is the `TypeError`/`ValueError` case. -/
def py_to_int : PyVal → Option PyVal
  | PyVal.null => none
  | PyVal.bool b => some (PyVal.int (cond b 1 0))
  | PyVal.int n => some (PyVal.int n)
  | PyVal.float q => some (PyVal.int (q.num.tdiv q.den))
  | PyVal.str s => (parsePyInt s).map PyVal.int

/-- Embeds `float(v)`: `none` is the `TypeError`/`ValueError` case. -/
def py_to_float : PyVal → Option PyVal
  | PyVal.null => none
  | PyVal.bool b => some (PyVal.float (cond b 1 0))
  | PyVal.int n => some (PyVal.float n)
  | PyVal.float q => some (PyVal.float q)
  | PyVal.str s => (parsePyFloat s).map PyVal.float

/-- Embeds `lambda x: str(x).lower()`: total. -/
def py_to_lower (v : PyVal) : Option PyVal :=
  some (PyVal.str (String.mk ((pyStr v).toList.map Char.toLower)))

/-- Embeds `lambda x: str(x).upper()`: total. -/
def py_to_upper (v : PyVal) : Option PyVal :=
  some (PyVal.str (String.mk ((pyStr v).toList.map Char.toUpper)))

/-- The transformation registry of `SchemaMapper._apply_transformation`
(lines 94-100 of `schema_mapper.py`), in source order. -/
def transformations : List (String × (PyVal → Option PyVal)) :=
  [("to_string", py_to_string),
   ("to_int", py_to_int),
   ("to_float", py_to_float),
   ("to_lower", py_to_lower),
   ("to_upper", py_to_upper)]

/-- Registry lookup (`if transformation in transformations`). -/
def lookupTransformation (t : String) : Option (PyVal → Option PyVal) :=
  (transformations.find? (fun p => p.1 == t)).map Prod.snd

/-- Embeds `SchemaMapper._apply_transformation`: a known name is applied
with `ValueError`/`TypeError` caught (fallback to the raw value); an
unknown name falls through and returns the raw value. -/
def apply_transformation (t : String) (v : PyVal) : PyVal :=
  match lookupTransformation t with
  | some f =>
      match f v with
      | some w => w
      | none => v
  | none => v

/-- Embeds `PropertyMapping` (pydantic model). -/
structure PropertyMapping where
  source_column : String
  target_property : String
  transformation : Option String := none
deriving DecidableEq, Repr

/-- Embeds `SchemaMapping` (pydantic model). -/
structure SchemaMapping where
  source_type : String
  source_config : Row
  object_type_id : String
  property_mappings : List PropertyMapping
  primary_key_mapping : PropertyMapping
deriving DecidableEq, Repr

/-- One iteration of the `for prop_mapping in mapping.property_mappings`
loop of `SchemaMapper.map_row` (lines 78-87): `row.get` defaults to
`None`, a `None` (absent or null) source value is skipped, a truthy
transformation name (neither `None` nor the empty string) is applied. -/
def mapRowStep (source_row : Row) (properties : Row) (pm : PropertyMapping) : Row :=
  let source_value := (dictGet source_row pm.source_column).getD PyVal.null
  if source_value = PyVal.null then properties
  else
    let v := match pm.transformation with
      | some t => if t = "" then source_value else apply_transformation t source_value
      | none => source_value
    dictSet properties pm.target_property v

/-- Embeds `SchemaMapper.map_row`. -/
def map_row (mapping : SchemaMapping) (source_row : Row) : Row :=
  mapping.property_mappings.foldl (mapRowStep source_row) []

/-- Embeds `SchemaMapper.extract_primary_key`:
`str(source_row.get(col, ''))`.  Total by construction (`str` raises on
none of the pipeline's scalars). -/
def extract_primary_key (mapping : SchemaMapping) (source_row : Row) : String :=
  pyStr ((dictGet source_row mapping.primary_key_mapping.source_column).getD (PyVal.str ""))

/-- Key-unique insertion for the mapping table of `SchemaMapper.mappings`
(Python dict keyed by an arbitrary value). -/
def mdictSet : List (PyVal × SchemaMapping) → PyVal → SchemaMapping →
    List (PyVal × SchemaMapping)
  | [], key, m => [(key, m)]
  | (k, w) :: rest, key, m =>
      if k = key then (key, m) :: rest else (k, w) :: mdictSet rest key m

/-- Embeds `SchemaMapper._load_mappings` over already-structured mapping
configurations (pydantic's structural validation cannot fail on a
well-typed `SchemaMapping` value, and the loader performs no validation
of transformation names).  The `Except` result records that the loader
has no failing path of its own. -/
def load_mappings (config : List SchemaMapping) :
    Except String (List (PyVal × SchemaMapping)) :=
  Except.ok (config.foldl
    (fun acc m =>
      mdictSet acc ((dictGet m.source_config "identifier").getD (PyVal.str m.object_type_id)) m)
    [])

/-- A normalized object as appended to a batch in `ingest_from_source`
line 76: `(mapping.object_type_id, primary_key, properties)`. -/
abbrev Obj := String × String × Row

/-- The per-row mapping step of `ingest_from_source` (lines 72-76). -/
def mapObj (mapping : SchemaMapping) (source_row : Row) : Obj :=
  (mapping.object_type_id, extract_primary_key mapping source_row, map_row mapping source_row)

/-- A sink callback, `Optional` exactly as `Phonograph.sink_callback` is;
`Except.error` embeds an exception raised by the callback. -/
abbrev Sink := Option (Obj → Except Unit Unit)

/-- One iteration of the `for object_type, object_id, properties in batch`
loop of `Phonograph._process_batch` (lines 103-112): the sink is invoked
when configured, any exception is caught and the loop continues; without
a sink the object is only logged.  The returned flag records whether the
dispatch of this object succeeded. -/
def sinkCall (sink : Sink) (o : Obj) : Obj × Bool :=
  match sink with
  | some f =>
      match f o with
      | Except.ok _ => (o, true)
      | Except.error _ => (o, false)
  | none => (o, true)

/-- Embeds `Phonograph._process_batch`: every object of the batch is
dispatched independently; a per-object failure never escapes (hence the
total, trace-returning type). -/
def process_batch (sink : Sink) (batch : List Obj) : List (Obj × Bool) :=
  batch.map (sinkCall sink)

/-- A model of one run of a `SourceAdapter`: whether `connect()` succeeds,
and the successive outcomes of the row iterator (`Except.error` embeds an
exception raised while reading a row, which aborts the iteration). -/
structure SourceModel where
  connect_ok : Bool
  reads : List (Except Unit Row)
deriving Repr

/-- Embeds the `limit` handling shared by `CSVAdapter.read_rows` and
`SQLAdapter.read_rows` (`if limit and count >= limit: break` resp.
`if limit:` adding a `LIMIT` clause): by Python truthiness a limit of
`none` or `0` disables the bound. -/
def read_rows_limited (reads : List (Except Unit Row)) (limit : Option Nat) :
    List (Except Unit Row) :=
  match limit with
  | none => reads
  | some n => if n = 0 then reads else reads.take n

/-- The row loop of `Phonograph.ingest_from_source` (lines 66-93):
accumulate a batch, hand it to `_process_batch` once it reaches
`batch_size`, dispatch the remaining partial batch after exhaustion, and
return the batches dispatched (in order) together with the final
`total_ingested` — or the propagated exception of a failed row read,
which skips the partial-batch dispatch. -/
def ingestLoop (mapping : SchemaMapping) (batch_size : Nat) :
    List (Except Unit Row) → List Obj → Nat → List (List Obj) × Except Unit Nat
  | [], batch, total =>
      if batch ≠ [] then ([batch], Except.ok (total + batch.length))
      else ([], Except.ok total)
  | Except.error _ :: _, _, _ => ([], Except.error ())
  | Except.ok r :: rest, batch, total =>
      let batch' := batch ++ [mapObj mapping r]
      if batch_size ≤ batch'.length then
        let res := ingestLoop mapping batch_size rest [] (total + batch'.length)
        (batch' :: res.1, res.2)
      else
        ingestLoop mapping batch_size rest batch' total

/-- Observable resource/dispatch events of one `ingest_from_source` run. -/
inductive Ev where
  | connect
  | dispatch (batch : List Obj)
  | disconnect
deriving DecidableEq, Repr

/-- Embeds `Phonograph.ingest_from_source` (lines 63-99): `connect`, the
row loop over `read_rows(limit=limit)`, and the `finally:` clause calling
`disconnect` on every exit path.  Returns the event trace and either the
final `total_ingested` or the propagated exception. -/
def ingest_from_source (src : SourceModel) (mapping : SchemaMapping)
    (batch_size : Nat) (limit : Option Nat) : List Ev × Except Unit Nat :=
  if src.connect_ok then
    let r := ingestLoop mapping batch_size (read_rows_limited src.reads limit) [] 0
    (Ev.connect :: (r.1.map Ev.dispatch ++ [Ev.disconnect]), r.2)
  else
    ([Ev.disconnect], Except.error ())

/-- The batches handed to `_process_batch` during one run. -/
def dispatchedBatches (src : SourceModel) (mapping : SchemaMapping)
    (batch_size : Nat) (limit : Option Nat) : List (List Obj) :=
  if src.connect_ok then
    (ingestLoop mapping batch_size (read_rows_limited src.reads limit) [] 0).1
  else []

/-- One run with a sink attached: the per-object sink dispatch trace
(`_process_batch` applied to each dispatched batch, in order) together
with the run's result.  The result component never consults the sink:
`_process_batch` contains every sink exception. -/
def ingest_run (sink : Sink) (src : SourceModel) (mapping : SchemaMapping)
    (batch_size : Nat) (limit : Option Nat) : List (Obj × Bool) × Except Unit Nat :=
  (((dispatchedBatches src mapping batch_size limit).map (process_batch sink)).flatten,
   (ingest_from_source src mapping batch_size limit).2)

/-- One poll outcome of the streaming loop of
`StreamingPhonograph.stream_from_kafka`: a timeout (`poll` returned
`None`), an end-of-partition signal, another consumer error, or a message
whose payload either parses as JSON to a row or fails to parse
(`Except.error`, the `json.JSONDecodeError` case). -/
inductive KMsg where
  | timeout
  | partition_eof
  | consumer_error
  | message (payload : Except Unit Row)
deriving Repr

/-- Embeds the poll-loop body of `StreamingPhonograph.stream_from_kafka`
(lines 174-212) over a finite sequence of poll outcomes: timeouts,
end-of-partition signals and consumer errors are looped past; a payload
that fails to parse is caught and skipped (`continue`); a parsed message
is mapped and dispatched to the sink with any sink exception caught
(`continue`).  Returns the sink dispatch trace. -/
def stream_from_kafka (sink : Sink) (mapping : SchemaMapping) :
    List KMsg → List (Obj × Bool)
  | [] => []
  | KMsg.timeout :: rest => stream_from_kafka sink mapping rest
  | KMsg.partition_eof :: rest => stream_from_kafka sink mapping rest
  | KMsg.consumer_error :: rest => stream_from_kafka sink mapping rest
  | KMsg.message (Except.error _) :: rest => stream_from_kafka sink mapping rest
  | KMsg.message (Except.ok data) :: rest =>
      sinkCall sink (mapObj mapping data) :: stream_from_kafka sink mapping rest

/-- Specification helper: the greedy partition of a list into consecutive
chunks of size `bs` (the last chunk possibly shorter).  The engine's
dispatched batches are proved equal to it. -/
def chunksOf (bs : Nat) : List α → List (List α)
  | [] => []
  | a :: l => (a :: List.take (bs - 1) l) :: chunksOf bs (List.drop (bs - 1) l)
termination_by l => l.length
decreasing_by simp [List.length_drop]; omega

/-- Specification helper: only the complete `bs`-sized chunks, dropping
the trailing remainder — what the engine has dispatched when a read
failure aborts the run. -/
def fullChunksOf (bs : Nat) : List α → List (List α)
  | [] => []
  | a :: l =>
      if bs - 1 ≤ l.length then
        (a :: List.take (bs - 1) l) :: fullChunksOf bs (List.drop (bs - 1) l)
      else []
termination_by l => l.length
decreasing_by simp [List.length_drop]; omega

/-- Example mapping of the spec's test scenario: `val` transformed with
`to_int`, primary key drawn from `id`. -/
def exMapping : SchemaMapping :=
  ⟨"csv", [("identifier", PyVal.str "people")], "Person",
   [⟨"val", "val", some "to_int"⟩], ⟨"id", "id", none⟩⟩

/-- First scenario row: a value `to_int` can coerce. -/
def exRow1 : Row := [("id", PyVal.str "1"), ("val", PyVal.str "10")]

/-- Second scenario row: a value on which `to_int` raises. -/
def exRow2 : Row := [("id", PyVal.str "2"), ("val", PyVal.str "abc")]

/-- A mapping whose single property_mapping names the unsupported
transformation "bogus". -/
def badMapping : SchemaMapping :=
  ⟨"csv", [], "Thing", [⟨"col", "prop", some "bogus"⟩], ⟨"id", "id", none⟩⟩

/-- A mapping with two property_mappings sharing target_property "t". -/
def dupMapping : SchemaMapping :=
  ⟨"csv", [], "Thing", [⟨"a", "t", none⟩, ⟨"b", "t", none⟩], ⟨"a", "a", none⟩⟩

theorem chunksOf_nil (bs : Nat) : chunksOf bs ([] : List α) = [] := by
  simp [chunksOf]

theorem chunksOf_eq_nil_iff (bs : Nat) (l : List α) : chunksOf bs l = [] ↔ l = [] := by
  cases l with
  | nil => simp [chunksOf]
  | cons a t => simp [chunksOf]

theorem chunksOf_prefix (bs : Nat) (hbs : 1 ≤ bs) (l m : List α) (hl : l.length = bs) :
    chunksOf bs (l ++ m) = l :: chunksOf bs m := by
  cases l with
  | nil => simp at hl; omega
  | cons a t =>
    have ht : t.length = bs - 1 := by simp at hl; omega
    simp only [List.cons_append, chunksOf]
    rw [← ht, List.take_left, List.drop_left]

theorem chunksOf_short (bs : Nat) (l : List α) (h0 : l ≠ []) (hle : l.length ≤ bs) :
    chunksOf bs l = [l] := by
  cases l with
  | nil => simp at h0
  | cons a t =>
    have ht : t.length ≤ bs - 1 := by simp at hle; omega
    simp [chunksOf, List.take_of_length_le ht, List.drop_eq_nil_of_le ht]

theorem chunksOf_length (bs : Nat) (hbs : 1 ≤ bs) (l : List α) :
    (chunksOf bs l).length = (l.length + bs - 1) / bs := by
  induction l using chunksOf.induct bs with
  | case1 =>
    simp only [chunksOf, List.length_nil]
    symm
    exact Nat.div_eq_of_lt (by omega)
  | case2 a l ih =>
    simp only [chunksOf, List.length_cons, ih, List.length_drop]
    rcases le_or_lt (bs - 1) l.length with h | h
    · have h1 : l.length - (bs - 1) + bs - 1 = l.length := by omega
      have h2 : l.length + 1 + bs - 1 = l.length + bs := by omega
      rw [h1, h2, Nat.add_div_right _ (by omega), Nat.add_comm]
    · have h1 : l.length - (bs - 1) = 0 := by omega
      rw [h1]
      have h2 : (0 + bs - 1) / bs = 0 := Nat.div_eq_of_lt (by omega)
      rw [h2]
      have h3 : (l.length + 1 + bs - 1) / bs = 1 := by
        rw [Nat.div_eq_of_lt_le] <;> omega
      omega

theorem getLast?_cons_ne_nil {β : Type _} (x : β) (rest : List β) (h : rest ≠ []) :
    List.getLast? (x :: rest) = List.getLast? rest := by
  cases rest with
  | nil => exact absurd rfl h
  | cons y ys => rw [List.getLast?_cons_cons]

theorem chunksOf_dropLast_length (bs : Nat) (hbs : 1 ≤ bs) (l : List α) :
    ∀ b ∈ (chunksOf bs l).dropLast, b.length = bs := by
  induction l using chunksOf.induct bs with
  | case1 => simp [chunksOf]
  | case2 a l ih =>
    intro b hb
    rw [chunksOf] at hb
    by_cases hd : List.drop (bs - 1) l = []
    · rw [hd, chunksOf_nil] at hb
      simp at hb
    · have hne : chunksOf bs (List.drop (bs - 1) l) ≠ [] := by
        intro hc; exact hd ((chunksOf_eq_nil_iff bs _).mp hc)
      rw [List.dropLast_cons_of_ne_nil hne] at hb
      rcases List.mem_cons.mp hb with hb | hb
      · have hlen : bs - 1 < l.length := by
          by_contra hc
          push_neg at hc
          exact hd (List.drop_eq_nil_of_le hc)
        subst hb
        simp [List.length_take]
        omega
      · exact ih b hb

theorem chunksOf_getLast_length (bs : Nat) (hbs : 1 ≤ bs) (l : List α) :
    l ≠ [] → ∃ c, (chunksOf bs l).getLast? = some c ∧
      c.length = (if l.length % bs = 0 then bs else l.length % bs) := by
  induction l using chunksOf.induct bs with
  | case1 => intro h; simp at h
  | case2 a l ih =>
    intro _
    rw [chunksOf]
    by_cases hd : List.drop (bs - 1) l = []
    · have hlen : l.length ≤ bs - 1 := by
        have h2 := congrArg List.length hd
        simp only [List.length_drop, List.length_nil] at h2
        omega
      rw [hd, chunksOf_nil]
      refine ⟨a :: List.take (bs - 1) l, rfl, ?_⟩
      rw [List.take_of_length_le hlen]
      simp only [List.length_cons]
      rcases lt_or_eq_of_le (show l.length + 1 ≤ bs by omega) with hlt | he
      · rw [if_neg, Nat.mod_eq_of_lt hlt]
        rw [Nat.mod_eq_of_lt hlt]
        omega
      · rw [he]
        simp
    · have hne : chunksOf bs (List.drop (bs - 1) l) ≠ [] := by
        intro hc; exact hd ((chunksOf_eq_nil_iff bs _).mp hc)
      obtain ⟨c, hc1, hc2⟩ := ih hd
      refine ⟨c, ?_, ?_⟩
      · rw [getLast?_cons_ne_nil _ _ hne]
        exact hc1
      · rw [hc2]
        have hlen : bs - 1 < l.length := by
          by_contra hc
          push_neg at hc
          exact hd (List.drop_eq_nil_of_le hc)
        have hmod : (List.drop (bs - 1) l).length % bs = (l.length + 1) % bs := by
          rw [List.length_drop]
          have he : l.length + 1 = (l.length - (bs - 1)) + bs := by omega
          rw [he, Nat.add_mod_right]
        simp only [List.length_cons]
        rw [hmod]

theorem fullChunksOf_short (bs : Nat) (hbs : 1 ≤ bs) (l : List α) (h : l.length < bs) :
    fullChunksOf bs l = [] := by
  cases l with
  | nil => simp [fullChunksOf]
  | cons a t =>
    rw [fullChunksOf, if_neg]
    simp at h
    omega

theorem fullChunksOf_prefix (bs : Nat) (hbs : 1 ≤ bs) (l m : List α) (hl : l.length = bs) :
    fullChunksOf bs (l ++ m) = l :: fullChunksOf bs m := by
  cases l with
  | nil => simp at hl; omega
  | cons a t =>
    have ht : t.length = bs - 1 := by simp at hl; omega
    simp only [List.cons_append, fullChunksOf]
    rw [if_pos (by simp [List.length_append]; omega)]
    rw [← ht, List.take_left, List.drop_left]

theorem ingestLoop_ok (mapping : SchemaMapping) (bs : Nat) (hbs : 1 ≤ bs) :
    ∀ (rows : List Row) (batch : List Obj) (total : Nat), batch.length < bs →
    ingestLoop mapping bs (rows.map Except.ok) batch total =
      (chunksOf bs (batch ++ rows.map (mapObj mapping)),
       Except.ok (total + batch.length + rows.length)) := by
  intro rows
  induction rows with
  | nil =>
    intro batch total hlt
    by_cases hb : batch = []
    · subst hb
      simp [ingestLoop, chunksOf_nil]
    · simp only [List.map_nil, ingestLoop, if_pos hb, List.append_nil, List.length_nil,
        Nat.add_zero]
      rw [chunksOf_short bs batch hb (le_of_lt hlt)]
  | cons r rows ih =>
    intro batch total hlt
    simp only [List.map_cons, ingestLoop]
    by_cases hif : bs ≤ (batch ++ [mapObj mapping r]).length
    · rw [if_pos hif]
      have hlen : (batch ++ [mapObj mapping r]).length = bs := by
        simp only [List.length_append, List.length_cons, List.length_nil] at hif ⊢
        omega
      rw [ih [] (total + (batch ++ [mapObj mapping r]).length) (by simp; omega)]
      have hsplit : batch ++ mapObj mapping r :: rows.map (mapObj mapping) =
          (batch ++ [mapObj mapping r]) ++ rows.map (mapObj mapping) := by
        simp
      rw [hsplit, chunksOf_prefix bs hbs _ _ hlen]
      simp only [List.nil_append, List.length_nil, Nat.add_zero, Prod.mk.injEq,
        List.length_cons]
      refine ⟨by trivial, ?_⟩
      congr 1
      simp only [List.length_append, List.length_cons, List.length_nil] at hlen ⊢
      omega
    · rw [if_neg hif]
      rw [ih (batch ++ [mapObj mapping r]) total
        (by simp only [List.length_append, List.length_cons, List.length_nil] at hif ⊢; omega)]
      have hsplit : batch ++ mapObj mapping r :: rows.map (mapObj mapping) =
          (batch ++ [mapObj mapping r]) ++ rows.map (mapObj mapping) := by
        simp
      rw [hsplit]
      simp only [Prod.mk.injEq, List.length_cons]
      refine ⟨by trivial, ?_⟩
      congr 1
      simp only [List.length_append, List.length_cons, List.length_nil]
      omega

theorem ingestLoop_error (mapping : SchemaMapping) (bs : Nat) (hbs : 1 ≤ bs) :
    ∀ (rows : List Row) (tl : List (Except Unit Row)) (batch : List Obj) (total : Nat),
    batch.length < bs →
    ingestLoop mapping bs (rows.map Except.ok ++ Except.error () :: tl) batch total =
      (fullChunksOf bs (batch ++ rows.map (mapObj mapping)), Except.error ()) := by
  intro rows
  induction rows with
  | nil =>
    intro tl batch total hlt
    simp only [List.map_nil, List.nil_append, ingestLoop, List.append_nil]
    rw [fullChunksOf_short bs hbs batch hlt]
  | cons r rows ih =>
    intro tl batch total hlt
    simp only [List.map_cons, List.cons_append, ingestLoop, List.append_eq]
    by_cases hif : bs ≤ (batch ++ [mapObj mapping r]).length
    · rw [if_pos hif]
      have hlen : (batch ++ [mapObj mapping r]).length = bs := by
        simp only [List.length_append, List.length_cons, List.length_nil] at hif ⊢
        omega
      rw [ih tl [] (total + (batch ++ [mapObj mapping r]).length) (by simp; omega)]
      have hsplit : batch ++ mapObj mapping r :: rows.map (mapObj mapping) =
          (batch ++ [mapObj mapping r]) ++ rows.map (mapObj mapping) := by
        simp
      rw [hsplit, fullChunksOf_prefix bs hbs _ _ hlen]
      simp
    · rw [if_neg hif]
      rw [ih tl (batch ++ [mapObj mapping r]) total
        (by simp only [List.length_append, List.length_cons, List.length_nil] at hif ⊢; omega)]
      have hsplit : batch ++ mapObj mapping r :: rows.map (mapObj mapping) =
          (batch ++ [mapObj mapping r]) ++ rows.map (mapObj mapping) := by
        simp
      rw [hsplit]

theorem ingestLoop_flatten_total (mapping : SchemaMapping) (bs : Nat) :
    ∀ (reads : List (Except Unit Row)) (batch : List Obj) (total t : Nat),
    (ingestLoop mapping bs reads batch total).2 = Except.ok t →
    t = total + ((ingestLoop mapping bs reads batch total).1.flatten).length := by
  intro reads
  induction reads with
  | nil =>
    intro batch total t h
    by_cases hb : batch = []
    · subst hb
      simp [ingestLoop] at h ⊢
      omega
    · simp only [ingestLoop, if_pos hb] at h ⊢
      simp only [Except.ok.injEq] at h
      simp [List.flatten]
      omega
  | cons e rest ih =>
    intro batch total t h
    cases e with
    | error u =>
      simp [ingestLoop] at h
    | ok r =>
      simp only [ingestLoop] at h ⊢
      by_cases hif : bs ≤ (batch ++ [mapObj mapping r]).length
      · rw [if_pos hif] at h ⊢
        have hr := ih [] (total + (batch ++ [mapObj mapping r]).length) t h
        simp only [List.flatten_cons, List.length_append] at hr ⊢
        omega
      · rw [if_neg hif] at h ⊢
        exact ih _ _ _ h

theorem ingestLoop_flatten_bound (mapping : SchemaMapping) (bs : Nat) :
    ∀ (reads : List (Except Unit Row)) (batch : List Obj) (total : Nat),
    ((ingestLoop mapping bs reads batch total).1.flatten).length ≤
      batch.length + reads.length := by
  intro reads
  induction reads with
  | nil =>
    intro batch total
    by_cases hb : batch = []
    · subst hb
      simp [ingestLoop]
    · simp only [ingestLoop, if_pos hb, List.length_nil]
      simp [List.flatten]
  | cons e rest ih =>
    intro batch total
    cases e with
    | error u =>
      simp [ingestLoop]
    | ok r =>
      simp only [ingestLoop, List.length_cons]
      by_cases hif : bs ≤ (batch ++ [mapObj mapping r]).length
      · rw [if_pos hif]
        have hr := ih [] (total + (batch ++ [mapObj mapping r]).length)
        simp only [List.flatten_cons, List.length_append, List.length_cons,
          List.length_nil, Nat.zero_add, Nat.add_zero] at hr ⊢
        omega
      · rw [if_neg hif]
        have hr := ih (batch ++ [mapObj mapping r]) total
        simp only [List.length_append, List.length_cons, List.length_nil] at hr
        omega

theorem sinkCall_fst (sink : Sink) (o : Obj) : (sinkCall sink o).1 = o := by
  cases sink with
  | none => rfl
  | some f => cases hfo : f o <;> simp [sinkCall, hfo]

theorem process_batch_length (sink : Sink) (batch : List Obj) :
    (process_batch sink batch).length = batch.length := by
  simp [process_batch]

theorem dictGet_dictSet_ne (d : Row) (k tp : String) (v : PyVal) (h : k ≠ tp) :
    dictGet (dictSet d k v) tp = dictGet d tp := by
  induction d with
  | nil => simp [dictSet, dictGet, h]
  | cons p rest ih =>
    rcases p with ⟨q, w⟩
    by_cases hq : q = k
    · subst hq
      simp [dictSet, dictGet, h]
    · simp only [dictSet, if_neg hq, dictGet]
      by_cases hqt : q = tp
      · rw [if_pos hqt, if_pos hqt]
      · rw [if_neg hqt, if_neg hqt]
        exact ih

theorem mapRow_foldl_none (row : Row) (tp : String) :
    ∀ (pms : List PropertyMapping) (acc : Row),
    dictGet acc tp = none →
    (∀ pm ∈ pms, pm.target_property = tp →
      (dictGet row pm.source_column).getD PyVal.null = PyVal.null) →
    dictGet (pms.foldl (mapRowStep row) acc) tp = none := by
  intro pms
  induction pms with
  | nil =>
    intro acc hacc _
    exact hacc
  | cons pm rest ih =>
    intro acc hacc hall
    rw [List.foldl_cons]
    apply ih
    · unfold mapRowStep
      by_cases hnull : (dictGet row pm.source_column).getD PyVal.null = PyVal.null
      · rw [if_pos hnull]
        exact hacc
      · rw [if_neg hnull]
        have htp : pm.target_property ≠ tp := by
          intro he
          exact hnull (hall pm (List.mem_cons_self _ _) he)
        rw [dictGet_dictSet_ne _ _ _ _ htp]
        exact hacc
    · intro q hq hqt
      exact hall q (List.mem_cons_of_mem _ hq) hqt

/-- Claim C1: over a source whose connection succeeds and that yields `M`
rows without read failures, `ingest_from_source` with `batch_size = bs ≥ 1`
returns `total_ingested = M`, dispatches exactly `⌈M / bs⌉` batches, every
batch before the last of size `bs`, the last of size `M % bs` when `bs`
does not divide `M` (and of size `bs` when it does); an empty source
dispatches no batch and returns `0` without error. -/
theorem C1_batch_shape (rows : List Row) (mapping : SchemaMapping) (bs : Nat)
    (hbs : 1 ≤ bs) :
    (ingest_from_source (SourceModel.mk true (rows.map Except.ok)) mapping bs none).2
        = Except.ok rows.length ∧
    (dispatchedBatches (SourceModel.mk true (rows.map Except.ok)) mapping bs none).length
        = (rows.length + bs - 1) / bs ∧
    (∀ b ∈ (dispatchedBatches (SourceModel.mk true (rows.map Except.ok)) mapping bs
        none).dropLast, b.length = bs) ∧
    (rows ≠ [] → ∃ c,
      (dispatchedBatches (SourceModel.mk true (rows.map Except.ok)) mapping bs
          none).getLast? = some c ∧
      c.length = (if rows.length % bs = 0 then bs else rows.length % bs)) ∧
    (rows = [] →
      dispatchedBatches (SourceModel.mk true (rows.map Except.ok)) mapping bs none = []) := by
  have hloop := ingestLoop_ok mapping bs hbs rows [] 0 (by simp; omega)
  have hdisp : dispatchedBatches (SourceModel.mk true (rows.map Except.ok)) mapping bs none
      = chunksOf bs (rows.map (mapObj mapping)) := by
    simp only [dispatchedBatches, read_rows_limited, if_pos rfl, hloop]
    simp
  have hres : (ingest_from_source (SourceModel.mk true (rows.map Except.ok)) mapping bs
      none).2 = Except.ok rows.length := by
    simp only [ingest_from_source, read_rows_limited, if_pos rfl, hloop]
    simp
  refine ⟨hres, ?_, ?_, ?_, ?_⟩
  · rw [hdisp, chunksOf_length bs hbs]
    simp
  · rw [hdisp]
    exact chunksOf_dropLast_length bs hbs _
  · intro hne
    rw [hdisp]
    have hmne : rows.map (mapObj mapping) ≠ [] := by
      simp [hne]
    obtain ⟨c, hc1, hc2⟩ := chunksOf_getLast_length bs hbs _ hmne
    refine ⟨c, hc1, ?_⟩
    rw [hc2]
    simp
  · intro he
    subst he
    rw [hdisp]
    simp [chunksOf_nil]

/-- Claim C1 witness: five rows with batch size two. -/
theorem C1_batch_shape_witness :
    1 ≤ 2 ∧
    (ingest_from_source
        (SourceModel.mk true ([exRow1, exRow2, exRow1, exRow2, exRow1].map Except.ok))
        exMapping 2 none).2 = Except.ok 5 ∧
    (dispatchedBatches
        (SourceModel.mk true ([exRow1, exRow2, exRow1, exRow2, exRow1].map Except.ok))
        exMapping 2 none).length = 3 := by
  have h := C1_batch_shape [exRow1, exRow2, exRow1, exRow2, exRow1] exMapping 2 (by decide)
  exact ⟨by decide, h.1, h.2.1⟩

/-- Claim C2: when the sink raises for the object at position `k` of a
batch, the exception is caught and every object of the batch — those
before, at and after `k` — is still dispatched (the dispatch trace of
`_process_batch` covers the whole batch in order), and the total returned
by a run equals the number of per-object sink invocations, failed ones
included, so the count is independent of per-object sink outcomes. -/
theorem process_batch_flatten_length (sink : Sink) (ds : List (List Obj)) :
    ((ds.map (process_batch sink)).flatten).length = ds.flatten.length := by
  induction ds with
  | nil => rfl
  | cons b rest ih => simp [process_batch_length, ih]

/-- Claim C2: when the sink raises for the object at position `k` of a
batch, the exception is caught and every object of the batch — those
before, at and after `k` — is still dispatched (the dispatch trace of
`_process_batch` covers the whole batch in order), and the total returned
by a run equals the number of per-object sink invocations, failed ones
included, so the count is independent of per-object sink outcomes. -/
theorem C2_sink_failure_isolated (f : Obj → Except Unit Unit) (batch : List Obj)
    (k : Nat) (hk : k < batch.length)
    (hfail : f (batch.get ⟨k, hk⟩) = Except.error ()) :
    (process_batch (some f) batch).map Prod.fst = batch ∧
    ∀ (src : SourceModel) (mapping : SchemaMapping) (bs : Nat) (limit : Option Nat)
      (total : Nat),
      (ingest_run (some f) src mapping bs limit).2 = Except.ok total →
      total = (ingest_run (some f) src mapping bs limit).1.length := by
  constructor
  · rw [process_batch, List.map_map]
    have hcg : List.map (Prod.fst ∘ sinkCall (some f)) batch = List.map id batch :=
      List.map_congr_left (fun a _ => sinkCall_fst _ a)
    rw [hcg, List.map_id]
  · intro src mapping bs limit total h
    rcases src with ⟨co, reads⟩
    cases co with
    | false =>
      simp [ingest_run, ingest_from_source] at h
    | true =>
      have h2 : (ingestLoop mapping bs (read_rows_limited reads limit) [] 0).2
          = Except.ok total := by
        simpa [ingest_run, ingest_from_source] using h
      have ht := ingestLoop_flatten_total mapping bs (read_rows_limited reads limit) [] 0
        total h2
      simp only [ingest_run, dispatchedBatches, eq_self_iff_true, if_true]
      rw [process_batch_flatten_length]
      omega

/-- Claim C2 witness: a sink that raises on every object, a one-object
batch, position 0. -/
theorem C2_sink_failure_isolated_witness :
    0 < [mapObj exMapping exRow1].length ∧
    (fun _ : Obj => (Except.error () : Except Unit Unit)) (mapObj exMapping exRow1)
      = Except.error () ∧
    (process_batch (some (fun _ => Except.error ())) [mapObj exMapping exRow1]).map
      Prod.fst = [mapObj exMapping exRow1] :=
  ⟨by decide, rfl,
   (C2_sink_failure_isolated (fun _ => Except.error ()) [mapObj exMapping exRow1] 0
     (by decide) rfl).1⟩

/-- Claim C3 (counterexample): loading a configuration that contains the
unsupported transformation name "bogus" raises no error — `_load_mappings`
never validates transformation names — and at row time the unknown name is
silently ignored, the raw value passing through; this refutes the claim
that such a configuration fails to load. -/
theorem C3_counterexample :
    (load_mappings [badMapping]).isOk = true ∧
    lookupTransformation "bogus" = none ∧
    apply_transformation "bogus" (PyVal.str "x") = PyVal.str "x" ∧
    map_row badMapping [("col", PyVal.str "x")] = [("prop", PyVal.str "x")] := by
  refine ⟨rfl, rfl, rfl, by decide⟩

/-- Claim C3 (amended): a configuration containing an unknown
transformation name loads without any error, and mapping a row with an
unknown transformation name raises no error either — the transformation
is silently skipped and the raw value is used. -/
theorem C3_unknown_transformation_ignored (t : String)
    (ht : lookupTransformation t = none) (v : PyVal) :
    apply_transformation t v = v ∧
    ∀ config : List SchemaMapping, (load_mappings config).isOk = true := by
  constructor
  · unfold apply_transformation
    rw [ht]
  · intro config
    rfl

/-- Claim C3 amended-theorem witness. -/
theorem C3_unknown_transformation_ignored_witness :
    lookupTransformation "bogus" = none ∧
    apply_transformation "bogus" (PyVal.int 3) = PyVal.int 3 :=
  ⟨rfl, (C3_unknown_transformation_ignored "bogus" rfl (PyVal.int 3)).1⟩

/-- Claim C4: for a supported transformation (a name `t` bound to coercion
`f` in the registry) and a value `v` on which the coercion fails,
`_apply_transformation` returns the raw value, and `map_row` on a row
whose property_mapping list is `l1 ++ [⟨sc, tp, some t⟩] ++ l2` still
stores the raw value under `tp` and still processes all of `l2` — the
failure aborts nothing. -/
theorem C4_coercion_fallback (t : String) (f : PyVal → Option PyVal)
    (ht : lookupTransformation t = some f) (v : PyVal) (hv : f v = none) :
    apply_transformation t v = v ∧
    ∀ (m : SchemaMapping) (l1 l2 : List PropertyMapping) (sc tp : String) (row : Row),
      m.property_mappings = l1 ++ PropertyMapping.mk sc tp (some t) :: l2 →
      (dictGet row sc).getD PyVal.null = v → v ≠ PyVal.null →
      map_row m row =
        l2.foldl (mapRowStep row) (dictSet (l1.foldl (mapRowStep row) []) tp v) := by
  have happ : apply_transformation t v = v := by
    simp [apply_transformation, ht, hv]
  refine ⟨happ, ?_⟩
  intro m l1 l2 sc tp row hpm hrow hvn
  have htne : t ≠ "" := by
    intro he
    subst he
    rw [show lookupTransformation "" = none from rfl] at ht
    cases ht
  unfold map_row
  rw [hpm, List.foldl_append, List.foldl_cons]
  congr 1
  unfold mapRowStep
  simp only [hrow]
  rw [if_neg hvn, if_neg htne, happ]

/-- Claim C4 witness: the spec's own scenario — `to_int` on the
non-numeric value "abc" falls back to the raw string and the row still
maps. -/
theorem C4_coercion_fallback_witness :
    lookupTransformation "to_int" = some py_to_int ∧
    py_to_int (PyVal.str "abc") = none ∧
    apply_transformation "to_int" (PyVal.str "abc") = PyVal.str "abc" ∧
    map_row exMapping exRow2 = [("val", PyVal.str "abc")] := by
  have h := C4_coercion_fallback "to_int" py_to_int rfl (PyVal.str "abc") rfl
  refine ⟨rfl, rfl, h.1, ?_⟩
  have h2 := h.2 exMapping [] [] "val" "val" exRow2 rfl rfl (by decide)
  exact h2

/-- Claim C5 (counterexample): with two property_mappings sharing
target_property "t" and a row containing column "a" but not "b", the
property_mapping from "b" has an absent source column, yet the output of
`map_row` does contain the key "t" — refuting the claim as stated for
every mapping. -/
theorem C5_counterexample :
    (dupMapping.property_mappings.get ⟨1, by decide⟩).source_column = "b" ∧
    dictGet [("a", PyVal.int 1)] "b" = none ∧
    dictGet (map_row dupMapping [("a", PyVal.int 1)]) "t" = some (PyVal.int 1) := by
  refine ⟨rfl, rfl, by decide⟩

/-- Claim C5 (amended): if every property_mapping sharing the
target_property `tp` has its source column absent from the row or bound
to null, the output of `map_row` does not contain the key `tp` — absent
fields are omitted, never emitted as null placeholders. -/
theorem C5_absent_fields_omitted (m : SchemaMapping) (row : Row) (tp : String)
    (h : ∀ pm ∈ m.property_mappings, pm.target_property = tp →
      (dictGet row pm.source_column).getD PyVal.null = PyVal.null) :
    dictGet (map_row m row) tp = none := by
  unfold map_row
  exact mapRow_foldl_none row tp m.property_mappings [] rfl h

/-- Claim C5 witness: the scenario mapping with a row missing `val`. -/
theorem C5_absent_fields_omitted_witness :
    (∀ pm ∈ exMapping.property_mappings, pm.target_property = "val" →
      (dictGet [("id", PyVal.str "7")] pm.source_column).getD PyVal.null = PyVal.null) ∧
    dictGet (map_row exMapping [("id", PyVal.str "7")]) "val" = none :=
  ⟨by decide, C5_absent_fields_omitted exMapping [("id", PyVal.str "7")] "val" (by decide)⟩

theorem trace_shape (ds : List (List Obj)) :
    (Ev.connect :: (ds.map Ev.dispatch ++ [Ev.disconnect])).count Ev.disconnect = 1 ∧
    (Ev.connect :: (ds.map Ev.dispatch ++ [Ev.disconnect])).getLast? = some Ev.disconnect := by
  constructor
  · have hnm : Ev.disconnect ∉ ds.map Ev.dispatch := by
      simp [List.mem_map]
    rw [List.count_cons, List.count_append]
    rw [List.count_eq_zero.mpr hnm]
    simp
  · rw [← List.cons_append, List.getLast?_concat]

/-- Claim C6: on every execution path of `ingest_from_source` — connect
failure, read failure mid-stream, or normal completion — the trace ends
with exactly one `disconnect` event; when the source fails after `rows`
good rows (no limit), the error propagates (`Except.error`) and the trace
still carries the dispatch events of every completed batch accumulated
before the failure (no rollback). -/
theorem C6_disconnect_on_every_path (src : SourceModel) (mapping : SchemaMapping)
    (bs : Nat) (limit : Option Nat) (hbs : 1 ≤ bs) :
    (ingest_from_source src mapping bs limit).1.count Ev.disconnect = 1 ∧
    (ingest_from_source src mapping bs limit).1.getLast? = some Ev.disconnect ∧
    (src.connect_ok = false →
      (ingest_from_source src mapping bs limit).2 = Except.error ()) ∧
    (∀ (rows : List Row) (tl : List (Except Unit Row)),
      src.connect_ok = true → src.reads = rows.map Except.ok ++ Except.error () :: tl →
      limit = none →
      (ingest_from_source src mapping bs limit).2 = Except.error () ∧
      (ingest_from_source src mapping bs limit).1 =
        Ev.connect :: ((fullChunksOf bs (rows.map (mapObj mapping))).map Ev.dispatch ++
          [Ev.disconnect])) := by
  rcases src with ⟨co, reads⟩
  cases co with
  | false =>
    refine ⟨?_, ?_, ?_, ?_⟩
    · simp [ingest_from_source]
    · simp [ingest_from_source]
    · intro _
      rfl
    · intro rows tl hco
      simp at hco
  | true =>
    have htr : (ingest_from_source (SourceModel.mk true reads) mapping bs limit).1 =
        Ev.connect :: ((ingestLoop mapping bs (read_rows_limited reads limit) [] 0).1.map
          Ev.dispatch ++ [Ev.disconnect]) := rfl
    refine ⟨?_, ?_, ?_, ?_⟩
    · rw [htr]
      exact (trace_shape _).1
    · rw [htr]
      exact (trace_shape _).2
    · intro hco
      simp at hco
    · intro rows tl _ hreads hlim
      subst hreads
      subst hlim
      have hloop := ingestLoop_error mapping bs hbs rows tl [] 0 (by simp; omega)
      constructor
      · show (ingestLoop mapping bs
            (read_rows_limited (rows.map Except.ok ++ Except.error () :: tl) none) [] 0).2
          = Except.error ()
        rw [show read_rows_limited (rows.map Except.ok ++ Except.error () :: tl) none
            = rows.map Except.ok ++ Except.error () :: tl from rfl, hloop]
      · rw [htr]
        rw [show read_rows_limited (rows.map Except.ok ++ Except.error () :: tl) none
            = rows.map Except.ok ++ Except.error () :: tl from rfl, hloop]
        simp

/-- Claim C6 witness: a source that fails on its second read, batch size 1. -/
theorem C6_disconnect_on_every_path_witness :
    1 ≤ 1 ∧
    (ingest_from_source (SourceModel.mk true [Except.ok exRow1, Except.error ()])
      exMapping 1 none).1.count Ev.disconnect = 1 :=
  ⟨by decide,
   (C6_disconnect_on_every_path (SourceModel.mk true [Except.ok exRow1, Except.error ()])
     exMapping 1 none (by decide)).1⟩

/-- Claim C7 (counterexample): with `limit = 0` — a finite limit — over a
one-row source, one row is read and one object is ingested: Python
truthiness (`if limit:`) makes a zero limit behave as no limit in both
concrete adapters, refuting the claim for every finite limit. -/
theorem C7_counterexample :
    (read_rows_limited [Except.ok exRow1] (some 0)).length = 1 ∧
    (ingest_from_source (SourceModel.mk true [Except.ok exRow1]) exMapping 1000
      (some 0)).2 = Except.ok 1 :=
  ⟨rfl, rfl⟩

theorem read_rows_limited_length_le (reads : List (Except Unit Row)) (L : Nat)
    (hL : 1 ≤ L) : (read_rows_limited reads (some L)).length ≤ L := by
  simp only [read_rows_limited]
  rw [if_neg (by omega)]
  simp only [List.length_take]
  exact Nat.min_le_left _ _

/-- Claim C7 (amended): for every limit `L ≥ 1`, at most `L` rows are
read from the source, at most `L` objects are dispatched, and the
returned total never exceeds `L`. -/
theorem C7_limit_bounds (src : SourceModel) (mapping : SchemaMapping) (bs : Nat)
    (L : Nat) (hL : 1 ≤ L) :
    (read_rows_limited src.reads (some L)).length ≤ L ∧
    ((dispatchedBatches src mapping bs (some L)).flatten).length ≤ L ∧
    (∀ total, (ingest_from_source src mapping bs (some L)).2 = Except.ok total →
      total ≤ L) := by
  refine ⟨read_rows_limited_length_le src.reads L hL, ?_, ?_⟩
  · rcases src with ⟨co, reads⟩
    cases co with
    | false => simp [dispatchedBatches]
    | true =>
      simp only [dispatchedBatches, eq_self_iff_true, if_true]
      calc ((ingestLoop mapping bs (read_rows_limited reads (some L)) [] 0).1.flatten).length
          ≤ [].length + (read_rows_limited reads (some L)).length :=
            ingestLoop_flatten_bound mapping bs _ [] 0
        _ ≤ L := by simpa using read_rows_limited_length_le reads L hL
  · intro total h
    rcases src with ⟨co, reads⟩
    cases co with
    | false => simp [ingest_from_source] at h
    | true =>
      have h2 : (ingestLoop mapping bs (read_rows_limited reads (some L)) [] 0).2
          = Except.ok total := by
        simpa [ingest_from_source] using h
      have ht := ingestLoop_flatten_total mapping bs (read_rows_limited reads (some L))
        [] 0 total h2
      have hb := ingestLoop_flatten_bound mapping bs (read_rows_limited reads (some L)) [] 0
      have hr := read_rows_limited_length_le reads L hL
      simp only [List.length_nil, Nat.zero_add] at ht hb
      omega

/-- Claim C7 amended-theorem witness: limit 1 over a two-row source. -/
theorem C7_limit_bounds_witness :
    1 ≤ 1 ∧
    (read_rows_limited (SourceModel.mk true [Except.ok exRow1, Except.ok exRow2]).reads
      (some 1)).length ≤ 1 :=
  ⟨by decide,
   (C7_limit_bounds (SourceModel.mk true [Except.ok exRow1, Except.ok exRow2]) exMapping
     1 1 (by decide)).1⟩

/-- Claim C8: a message whose payload fails to parse is skipped — the
streaming loop's dispatch trace over any poll sequence containing the
malformed message equals the trace over the same sequence without it, so
the loop neither terminates nor dispatches on it — and a malformed
message followed by a well-formed one yields exactly one sink
invocation. -/
theorem C8_malformed_message_skipped (sink : Sink) (mapping : SchemaMapping)
    (ms1 ms2 : List KMsg) (data : Row) :
    stream_from_kafka sink mapping (ms1 ++ KMsg.message (Except.error ()) :: ms2)
      = stream_from_kafka sink mapping (ms1 ++ ms2) ∧
    stream_from_kafka sink mapping
        [KMsg.message (Except.error ()), KMsg.message (Except.ok data)]
      = [sinkCall sink (mapObj mapping data)] := by
  constructor
  · induction ms1 with
    | nil => rfl
    | cons m ms ih =>
      cases m with
      | timeout => simpa [stream_from_kafka] using ih
      | partition_eof => simpa [stream_from_kafka] using ih
      | consumer_error => simpa [stream_from_kafka] using ih
      | message p =>
        cases p with
        | error u => simpa [stream_from_kafka] using ih
        | ok r => simpa [stream_from_kafka] using ih
  · rfl

/-- Claim C9: `extract_primary_key` is total (the embedding returns a
`String` for every mapping and row — `str` raises on none of the
pipeline's scalars), and when the primary-key source column is absent
from the row it returns the empty string. -/
theorem C9_extract_primary_key_total (m : SchemaMapping) (row : Row)
    (h : dictGet row m.primary_key_mapping.source_column = none) :
    extract_primary_key m row = "" := by
  unfold extract_primary_key
  rw [h]
  rfl

/-- Claim C9 witness: the empty row. -/
theorem C9_extract_primary_key_total_witness :
    dictGet [] exMapping.primary_key_mapping.source_column = none ∧
    extract_primary_key exMapping [] = "" :=
  ⟨rfl, C9_extract_primary_key_total exMapping [] rfl⟩

/-- Claim C10 (counterexample): a row whose primary-key column is present
with the empty-string value also yields the empty string, so an entirely
absent column is not the only way to obtain "" — refuting the claim's
final clause. -/
theorem C10_counterexample :
    dictGet [("id", PyVal.str "")] exMapping.primary_key_mapping.source_column
      = some (PyVal.str "") ∧
    extract_primary_key exMapping [("id", PyVal.str "")] = "" :=
  ⟨rfl, rfl⟩

/-- Claim C10 (amended): a present-but-null primary-key value stringifies
to "None", never the empty string; an absent column yields "" (and a
present empty-string value yields "" as well, so absence is not the only
source of the empty string). -/
theorem C10_null_pk_stringifies (m : SchemaMapping) (row : Row)
    (h : dictGet row m.primary_key_mapping.source_column = some PyVal.null) :
    extract_primary_key m row = "None" ∧ extract_primary_key m row ≠ "" := by
  have he : extract_primary_key m row = "None" := by
    unfold extract_primary_key
    rw [h]
    rfl
  exact ⟨he, by rw [he]; decide⟩

/-- Claim C10 amended-theorem witness: a null primary-key value. -/
theorem C10_null_pk_stringifies_witness :
    dictGet [("id", PyVal.null)] exMapping.primary_key_mapping.source_column
      = some PyVal.null ∧
    extract_primary_key exMapping [("id", PyVal.null)] = "None" :=
  ⟨rfl, (C10_null_pk_stringifies exMapping [("id", PyVal.null)] rfl).1⟩

end Ontology
